import Mathlib

/-!
# LazyVector: a vector with one deferred element-wise operation

A shallow embedding of the class template `LazyVector<T>` (LazyVector.h,
LazyVector.cc; LazyVector.cpp holds the same member functions in one file)
and of the function `main` of main.cc.

* `std::vector<T>` is a `List T`.
* The element type `T` is a template argument; its arithmetic comes in as
  an `Arithmetic T` record.  Addition, subtraction and multiplication are
  total, division may be undefined (division of an `int` by zero, or of
  `-2147483648` by `-1`).  A `Numeric T` is the arithmetic of a type whose
  division is undefined by its zero only, such as `unsigned int`.
* A member function is a function from the objects it can reach through
  `this` and its reference arguments to an `Outcome`: the call returns a
  value and leaves the objects in a new state, or a C++ exception leaves the
  call with the objects in the state they had at the `throw`, or the call
  runs into undefined behaviour (an undefined division of `T`, a read past
  the end of a `std::vector`), after which nothing is known.
* A call with a reference argument is modelled for two distinct objects; the
  state of such a call is the pair of `*this` and the argument.
* Text written to `std::cout` is a `String`; `operator<<` of `T` comes in as
  a rendering function.
-/

namespace LazyVec

/-- Arithmetic of the element type.  The four fields `add`, `sub`, `mul`, `div`
are the operators `+=`, `-=`, `*=`, `/=` of `T`; `div` answers `none` where the
division of `T` is undefined. -/
structure Arithmetic (T : Type) where
  add : T → T → T
  sub : T → T → T
  mul : T → T → T
  div : T → T → Option T

/-- An element type with a zero value by which alone a division is undefined:
the arithmetic of `T`, the zero of `T`, and the fact that a division by
anything else is defined. -/
structure Numeric (T : Type) extends Arithmetic T where
  zero : T
  div_defined : ∀ a b : T, b ≠ zero → (div a b).isSome = true

instance {T : Type} : Coe (Numeric T) (Arithmetic T) :=
  ⟨Numeric.toArithmetic⟩

/-- Two-complement wrap of an integer into the range of a 32 bit `int`. -/
def wrapInt (x : Int) : Int :=
  (x + 2147483648) % 4294967296 - 2147483648

/-- Division of `int`: the quotient truncated toward zero.  It is undefined
for a zero divisor and for `-2147483648 / -1`, whose quotient `2147483648` is
no `int`. -/
def intDiv (a b : Int) : Option Int :=
  if b = 0 then none
  else if a = -2147483648 ∧ b = -1 then none
  else some (Int.tdiv a b)

/-- Arithmetic of `T = int`: a sum, difference or product that overflows wraps
around, division is `intDiv`. -/
def intArithmetic : Arithmetic Int where
  add a b := wrapInt (a + b)
  sub a b := wrapInt (a - b)
  mul a b := wrapInt (a * b)
  div := intDiv

/-- Arithmetic of `T = unsigned int`, which is arithmetic modulo `2^32`; a
division is undefined for a zero divisor only. -/
def unsignedNumeric : Numeric Nat where
  add a b := (a + b) % 4294967296
  sub a b := (a + 4294967296 - b % 4294967296) % 4294967296
  mul a b := (a * b) % 4294967296
  div a b := if b = 0 then none else some (a / b)
  zero := 0
  div_defined := by
    intro a b hb
    simp [hb]

/-- The enum `Operator` of LazyVector.h, in its order of declaration. -/
inductive Operator where
  | Add
  | Subtract
  | Divide
  | Multiply
  | Unknown
  deriving DecidableEq, Repr

/-- The `std::invalid_argument` exceptions of LazyVector.cc, one constructor
for each `throw`:
* `InvalidState`: thrown by `PushValue`, "Invalid Operation: Vector should be
  operated on before new element can be added.";
* `SizeMismatch tag`: thrown by the binary operator recording `tag`, "Vectors
  to be added should have same size." and its three siblings;
* `InvalidOperation`: thrown by `performOperation`, "Invalid Operation". -/
inductive Exception where
  | InvalidState
  | SizeMismatch (tag : Operator)
  | InvalidOperation
  deriving DecidableEq, Repr

/-- How a call ends.  `state` holds the objects the call reaches by reference
(`this` and the reference argument), `value` what the call returns. -/
inductive Outcome (σ α : Type) where
  | returned (value : α) (state : σ)
  | thrown (e : Exception) (state : σ)
  | undefined
  deriving DecidableEq, Repr

end LazyVec

/-- The three data members of `LazyVector<T>`. -/
structure LazyVector (T : Type) where
  m_stlVector : List T
  m_eOperator : LazyVec.Operator
  m_stlOtherVector : List T
  deriving DecidableEq, Repr

namespace LazyVector

open LazyVec

variable {T : Type}

/-- Default constructor: no element, no pending operation. -/
def defaultCtor : LazyVector T :=
  { m_stlVector := [], m_eOperator := Operator.Unknown, m_stlOtherVector := [] }

/-- The loop shared by `addVectors`, `subtractVectors`, `multiplyVectors` and
`divideVectors`:
`for (int i = 0; i < m_stlVector.size(); i++) m_stlVector[i] op= m_stlOtherVector[i];`
The list argument holds the elements of `m_stlVector` from index `i` on, the
result the updated elements from index `i` on.  Reading `m_stlOtherVector[i]`
past the end, or an undefined `op=`, is undefined behaviour: `none`.  The
counter `int i` is a natural number here (vectors of fewer than 2^31 elements). -/
def elementLoop (f : T → T → Option T) (other : List T) : Nat → List T → Option (List T)
  | _, [] => some []
  | i, x :: rest =>
    match other[i]? with
    | none => none
    | some y =>
      match f x y with
      | none => none
      | some z =>
        match elementLoop f other (i + 1) rest with
        | none => none
        | some zs => some (z :: zs)

/-- Member `addVectors`. -/
def addVectors (ops : Arithmetic T) (self : LazyVector T) : Option (LazyVector T) :=
  match elementLoop (fun a b => some (ops.add a b)) self.m_stlOtherVector 0 self.m_stlVector with
  | none => none
  | some v => some { self with m_stlVector := v }

/-- Member `subtractVectors`. -/
def subtractVectors (ops : Arithmetic T) (self : LazyVector T) : Option (LazyVector T) :=
  match elementLoop (fun a b => some (ops.sub a b)) self.m_stlOtherVector 0 self.m_stlVector with
  | none => none
  | some v => some { self with m_stlVector := v }

/-- Member `multiplyVectors`. -/
def multiplyVectors (ops : Arithmetic T) (self : LazyVector T) : Option (LazyVector T) :=
  match elementLoop (fun a b => some (ops.mul a b)) self.m_stlOtherVector 0 self.m_stlVector with
  | none => none
  | some v => some { self with m_stlVector := v }

/-- Member `divideVectors`. -/
def divideVectors (ops : Arithmetic T) (self : LazyVector T) : Option (LazyVector T) :=
  match elementLoop ops.div self.m_stlOtherVector 0 self.m_stlVector with
  | none => none
  | some v => some { self with m_stlVector := v }

/-- The two statements of `performOperation` after its `switch`:
`m_eOperator = Operator::Unknown; m_stlOtherVector.clear();`, reached when the
selected loop has run through. -/
def clearPending : Option (LazyVector T) → Outcome (LazyVector T) Unit
  | none => Outcome.undefined
  | some s =>
    Outcome.returned () { s with m_eOperator := Operator.Unknown, m_stlOtherVector := [] }

/-- Member `performOperation`: the `switch` on `m_eOperator`, whose `default`
branch throws, then the reset of the pending fields. -/
def performOperation (ops : Arithmetic T) (self : LazyVector T) : Outcome (LazyVector T) Unit :=
  match self.m_eOperator with
  | Operator.Add => clearPending (addVectors ops self)
  | Operator.Subtract => clearPending (subtractVectors ops self)
  | Operator.Multiply => clearPending (multiplyVectors ops self)
  | Operator.Divide => clearPending (divideVectors ops self)
  | Operator.Unknown => Outcome.thrown Exception.InvalidOperation self

/-- Move constructor `LazyVector(LazyVector<T>&& other)`: the new object, then
`other` as the constructor leaves it. -/
def moveCtor (other : LazyVector T) : LazyVector T × LazyVector T :=
  ({ m_stlVector := other.m_stlVector,
     m_eOperator := other.m_eOperator,
     m_stlOtherVector := other.m_stlOtherVector },
   { m_stlVector := [], m_eOperator := Operator.Unknown, m_stlOtherVector := [] })

/-- Copy constructor `LazyVector(const LazyVector<T>& other)`.  The value is the
new object, the state is `other`, which the constructor only reads. -/
def copyCtor (ops : Arithmetic T) (other : LazyVector T) :
    Outcome (LazyVector T) (LazyVector T) :=
  let self : LazyVector T :=
    { m_stlVector := other.m_stlVector,
      m_eOperator := other.m_eOperator,
      m_stlOtherVector := other.m_stlOtherVector }
  if self.m_eOperator ≠ Operator.Unknown then
    match performOperation ops self with
    | Outcome.returned _ self1 => Outcome.returned self1 other
    | Outcome.thrown e _ => Outcome.thrown e other
    | Outcome.undefined => Outcome.undefined
  else
    Outcome.returned self other

/-- Member `PushValue`. -/
def PushValue (self : LazyVector T) (value : T) : Outcome (LazyVector T) Unit :=
  if !self.m_stlOtherVector.isEmpty then
    Outcome.thrown Exception.InvalidState self
  else
    Outcome.returned () { self with m_stlVector := self.m_stlVector ++ [value] }

/-- Member `size`. -/
def size (self : LazyVector T) : Nat :=
  self.m_stlVector.length

/-- The statement `return *this;` of a function returning `LazyVector<T>` by
value: the returned object is copy-constructed from `*this`.  The state is the
pair of `*this` and the reference argument. -/
def returnCopy (ops : Arithmetic T) (self otherVector : LazyVector T) :
    Outcome (LazyVector T × LazyVector T) (LazyVector T) :=
  match copyCtor ops self with
  | Outcome.returned result self1 => Outcome.returned result (self1, otherVector)
  | Outcome.thrown e self1 => Outcome.thrown e (self1, otherVector)
  | Outcome.undefined => Outcome.undefined

/-- Member `operator+`. -/
def operatorAdd (ops : Arithmetic T) (self otherVector : LazyVector T) :
    Outcome (LazyVector T × LazyVector T) (LazyVector T) :=
  if self.m_stlVector.length ≠ otherVector.size then
    Outcome.thrown (Exception.SizeMismatch Operator.Add) (self, otherVector)
  else
    let self1 := { self with m_eOperator := Operator.Add }
    let self2 := { self1 with m_stlOtherVector := otherVector.m_stlVector }
    returnCopy ops self2 otherVector

/-- Member `operator-`. -/
def operatorSub (ops : Arithmetic T) (self otherVector : LazyVector T) :
    Outcome (LazyVector T × LazyVector T) (LazyVector T) :=
  if self.m_stlVector.length ≠ otherVector.size then
    Outcome.thrown (Exception.SizeMismatch Operator.Subtract) (self, otherVector)
  else
    let self1 := { self with m_eOperator := Operator.Subtract }
    let self2 := { self1 with m_stlOtherVector := otherVector.m_stlVector }
    returnCopy ops self2 otherVector

/-- Member `operator*`. -/
def operatorMul (ops : Arithmetic T) (self otherVector : LazyVector T) :
    Outcome (LazyVector T × LazyVector T) (LazyVector T) :=
  if self.m_stlVector.length ≠ otherVector.size then
    Outcome.thrown (Exception.SizeMismatch Operator.Multiply) (self, otherVector)
  else
    let self1 := { self with m_eOperator := Operator.Multiply }
    let self2 := { self1 with m_stlOtherVector := otherVector.m_stlVector }
    returnCopy ops self2 otherVector

/-- Member `operator/`. -/
def operatorDiv (ops : Arithmetic T) (self otherVector : LazyVector T) :
    Outcome (LazyVector T × LazyVector T) (LazyVector T) :=
  if self.m_stlVector.length ≠ otherVector.size then
    Outcome.thrown (Exception.SizeMismatch Operator.Divide) (self, otherVector)
  else
    let self1 := { self with m_eOperator := Operator.Divide }
    let self2 := { self1 with m_stlOtherVector := otherVector.m_stlVector }
    returnCopy ops self2 otherVector

/-- Member `operator=`, called on two distinct objects.  It returns a reference
to `*this`, that is the first component of the state. -/
def operatorAssign (ops : Arithmetic T) (self otherVector : LazyVector T) :
    Outcome (LazyVector T × LazyVector T) Unit :=
  if otherVector.m_eOperator = Operator.Unknown then
    Outcome.returned () (self, otherVector)
  else
    let self1 := { self with m_stlVector := otherVector.m_stlVector }
    let self2 := { self1 with m_eOperator := otherVector.m_eOperator }
    let self3 := { self2 with m_stlOtherVector := otherVector.m_stlOtherVector }
    match performOperation ops self3 with
    | Outcome.returned _ self4 =>
      let other1 := { otherVector with m_eOperator := Operator.Unknown }
      let other2 := { other1 with m_stlOtherVector := [] }
      Outcome.returned () (self4, other2)
    | Outcome.thrown e self4 => Outcome.thrown e (self4, otherVector)
    | Outcome.undefined => Outcome.undefined

/-- Member `GetVector`. -/
def GetVector (self : LazyVector T) : List T :=
  self.m_stlVector

/-- Member `operator[]` read through: the element the returned reference
designates, `none` for an index outside the vector. -/
def operatorIndex (self : LazyVector T) (index : Nat) : Option T :=
  self.m_stlVector[index]?

end LazyVector

namespace LazyVec

variable {T : Type}

/-- The four binary operators of the class. -/
inductive BinaryOperator where
  | plus
  | minus
  | times
  | over
  deriving DecidableEq, Repr

/-- The tag a binary operator records in `m_eOperator`. -/
def BinaryOperator.tag : BinaryOperator → Operator
  | BinaryOperator.plus => Operator.Add
  | BinaryOperator.minus => Operator.Subtract
  | BinaryOperator.times => Operator.Multiply
  | BinaryOperator.over => Operator.Divide

/-- The call `self op otherVector` of a binary operator. -/
def BinaryOperator.call (ops : Arithmetic T) :
    BinaryOperator → LazyVector T → LazyVector T →
      Outcome (LazyVector T × LazyVector T) (LazyVector T)
  | BinaryOperator.plus => LazyVector.operatorAdd ops
  | BinaryOperator.minus => LazyVector.operatorSub ops
  | BinaryOperator.times => LazyVector.operatorMul ops
  | BinaryOperator.over => LazyVector.operatorDiv ops

/-- The value `a op b` in `T` for a tag: what the claims write `A[i] op B[i]`.
No value for `Unknown`, nor where the division of `T` is undefined. -/
def Arithmetic.apply (ops : Arithmetic T) : Operator → T → T → Option T
  | Operator.Add, a, b => some (ops.add a b)
  | Operator.Subtract, a, b => some (ops.sub a b)
  | Operator.Multiply, a, b => some (ops.mul a b)
  | Operator.Divide, a, b => ops.div a b
  | Operator.Unknown, _, _ => none

/-- Condition on the divisors: when the tag is `Divide`, no element of the
right operand is the zero of `T`. -/
def Numeric.divisorsOk (ops : Numeric T) (tag : Operator) (divisors : List T) : Prop :=
  tag = Operator.Divide → ∀ b ∈ divisors, b ≠ ops.zero

/-- Element-wise reading of a result: `r` has the length of `xs`, and at every
index its element is the value of `xs[i] op ys[i]`. -/
def Arithmetic.elementwise (ops : Arithmetic T) (tag : Operator) (xs ys r : List T) : Prop :=
  r.length = xs.length ∧
    ∀ (i : Nat) (hx : i < xs.length) (hy : i < ys.length) (hr : i < r.length),
      ops.apply tag xs[i] ys[i] = some r[i]

end LazyVec

/-! ## Accessors, printing, the demonstration program, reachable states -/

namespace LazyVector

open LazyVec

variable {T : Type}

/-- The call `self.size()` as a call: the body is the single statement
`return m_stlVector.size();`, which writes no member. -/
def sizeCall (self : LazyVector T) : Outcome (LazyVector T) Nat :=
  Outcome.returned (size self) self

/-- The call `self.GetVector()` as a call: the body is the single statement
`return m_stlVector;`, which hands out a copy and writes no member. -/
def GetVectorCall (self : LazyVector T) : Outcome (LazyVector T) (List T) :=
  Outcome.returned (GetVector self) self

/-- The call `self[index]` read through, `index` being an `int`: the element
the returned reference designates.  `std::vector::operator[]` outside the
vector (a negative `index` converts to a huge `size_t`) is undefined
behaviour. The call itself writes no member. -/
def operatorIndexCall (self : LazyVector T) (index : Int) : Outcome (LazyVector T) T :=
  if 0 ≤ index then
    match operatorIndex self index.toNat with
    | some x => Outcome.returned x self
    | none => Outcome.undefined
  else
    Outcome.undefined

/-- The statement `self[index] = value;`, a write through the reference that
`operator[]` returns: inside the vector it replaces one element, outside it
is undefined behaviour. -/
def operatorIndexStore (self : LazyVector T) (index : Int) (value : T) :
    Outcome (LazyVector T) Unit :=
  if 0 ≤ index ∧ index.toNat < self.m_stlVector.length then
    Outcome.returned () { self with m_stlVector := self.m_stlVector.set index.toNat value }
  else
    Outcome.undefined

/-- The loop of `PrintVector`, `std::cout << m_stlVector[i] << " ";` for every
index in order: the text written.  `render` is `operator<<` of `T`. -/
def printLoop (render : T → String) : List T → String
  | [] => ""
  | x :: rest => render x ++ " " ++ printLoop render rest

/-- Member `PrintVector`: the text written to `std::cout`, that of the loop
and then the line break of `std::endl`. -/
def PrintVector (render : T → String) (self : LazyVector T) : String :=
  printLoop render self.m_stlVector ++ "\n"

end LazyVector

namespace LazyVec

variable {T : Type}

/-- Rendering of an `int` by `operator<<`: decimal digits, a minus sign
before a negative number. -/
def intRender (n : Int) : String :=
  toString n

/-- The values an `int` of 32 bits can hold. -/
def isInt (x : Int) : Prop :=
  -2147483648 ≤ x ∧ x ≤ 2147483647

/-- What a returning call hands on: the value and the state.  An exception
that nothing catches, or undefined behaviour, ends the program: `none`. -/
def Outcome.toOption {σ α : Type} : Outcome σ α → Option (α × σ)
  | Outcome.returned value state => some (value, state)
  | Outcome.thrown _ _ => none
  | Outcome.undefined => none

/-- The objects of `main` when it returns, and the text it has written. -/
structure MainResult where
  intVector1 : LazyVector Int
  intVector2 : LazyVector Int
  added : LazyVector Int
  subtracted : LazyVector Int
  multiplied : LazyVector Int
  divided : LazyVector Int
  output : String
  deriving DecidableEq, Repr

/-- The function `main` of main.cc, statement by statement.  A declaration
`LazyVector<int> added = (intVector1 + intVector2);` initialises `added` with
the value the operator returns. -/
def main : Option MainResult := do
  let intVector1 : LazyVector Int := LazyVector.defaultCtor
  let intVector1 ← (LazyVector.PushValue intVector1 1).toOption.map Prod.snd
  let intVector1 ← (LazyVector.PushValue intVector1 2).toOption.map Prod.snd
  let intVector1 ← (LazyVector.PushValue intVector1 3).toOption.map Prod.snd
  let intVector1 ← (LazyVector.PushValue intVector1 4).toOption.map Prod.snd
  let intVector1 ← (LazyVector.PushValue intVector1 5).toOption.map Prod.snd
  let intVector2 : LazyVector Int := LazyVector.defaultCtor
  let intVector2 ← (LazyVector.PushValue intVector2 6).toOption.map Prod.snd
  let intVector2 ← (LazyVector.PushValue intVector2 7).toOption.map Prod.snd
  let intVector2 ← (LazyVector.PushValue intVector2 8).toOption.map Prod.snd
  let intVector2 ← (LazyVector.PushValue intVector2 9).toOption.map Prod.snd
  let intVector2 ← (LazyVector.PushValue intVector2 10).toOption.map Prod.snd
  let call1 ← (LazyVector.operatorAdd intArithmetic intVector1 intVector2).toOption
  let added := call1.1
  let intVector1 := call1.2.1
  let intVector2 := call1.2.2
  let call2 ← (LazyVector.operatorSub intArithmetic intVector2 intVector1).toOption
  let subtracted := call2.1
  let intVector2 := call2.2.1
  let intVector1 := call2.2.2
  let call3 ← (LazyVector.operatorMul intArithmetic intVector1 intVector2).toOption
  let multiplied := call3.1
  let intVector1 := call3.2.1
  let intVector2 := call3.2.2
  let call4 ← (LazyVector.operatorDiv intArithmetic intVector2 intVector1).toOption
  let divided := call4.1
  let intVector2 := call4.2.1
  let intVector1 := call4.2.2
  let output :=
    "Original Vector 1: " ++ LazyVector.PrintVector intRender intVector1 ++
    "Original Vector 2: " ++ LazyVector.PrintVector intRender intVector2 ++
    "Added: " ++ LazyVector.PrintVector intRender added ++
    "Subtracted: (Vec2 - Vec1) " ++ LazyVector.PrintVector intRender subtracted ++
    "Multiplied: " ++ LazyVector.PrintVector intRender multiplied ++
    "Divided: (Vec2 / Vec1) " ++ LazyVector.PrintVector intRender divided
  some
    { intVector1 := intVector1, intVector2 := intVector2, added := added,
      subtracted := subtracted, multiplied := multiplied, divided := divided,
      output := output }

/-- The text the claim on printing describes: the renderings of the elements
in index order, one space between two consecutive ones and nothing before the
first or after the last. -/
def joinedBySpaces (render : T → String) : List T → String
  | [] => ""
  | [x] => render x
  | x :: y :: rest => render x ++ " " ++ joinedBySpaces render (y :: rest)

/-- The states an object can be in when it is built and used through the
public interface only: default construction, `PushValue`, the four binary
operators, copy construction, move construction, assignment and a write
through `operator[]`, every object taking part being itself such an object.  A call that throws leaves its
objects in a state that counts as well.  A binary operator or an assignment
applied to one object on both sides ends in the state listed for the receiver. -/
inductive Reachable (ops : Arithmetic T) : LazyVector T → Prop where
  | defaultCtor : Reachable ops LazyVector.defaultCtor
  | pushValue (s s1 : LazyVector T) (value : T) :
      Reachable ops s → LazyVector.PushValue s value = Outcome.returned () s1 →
      Reachable ops s1
  | pushValueThrown (s s1 : LazyVector T) (value : T) (e : Exception) :
      Reachable ops s → LazyVector.PushValue s value = Outcome.thrown e s1 →
      Reachable ops s1
  | binaryReceiver (op : BinaryOperator) (A B R A1 B1 : LazyVector T) :
      Reachable ops A → Reachable ops B →
      op.call ops A B = Outcome.returned R (A1, B1) → Reachable ops A1
  | binaryArgument (op : BinaryOperator) (A B R A1 B1 : LazyVector T) :
      Reachable ops A → Reachable ops B →
      op.call ops A B = Outcome.returned R (A1, B1) → Reachable ops B1
  | binaryValue (op : BinaryOperator) (A B R A1 B1 : LazyVector T) :
      Reachable ops A → Reachable ops B →
      op.call ops A B = Outcome.returned R (A1, B1) → Reachable ops R
  | binaryThrownReceiver (op : BinaryOperator) (A B A1 B1 : LazyVector T) (e : Exception) :
      Reachable ops A → Reachable ops B →
      op.call ops A B = Outcome.thrown e (A1, B1) → Reachable ops A1
  | binaryThrownArgument (op : BinaryOperator) (A B A1 B1 : LazyVector T) (e : Exception) :
      Reachable ops A → Reachable ops B →
      op.call ops A B = Outcome.thrown e (A1, B1) → Reachable ops B1
  | copyValue (X Y X1 : LazyVector T) :
      Reachable ops X → LazyVector.copyCtor ops X = Outcome.returned Y X1 → Reachable ops Y
  | copySource (X Y X1 : LazyVector T) :
      Reachable ops X → LazyVector.copyCtor ops X = Outcome.returned Y X1 → Reachable ops X1
  | moveValue (X : LazyVector T) :
      Reachable ops X → Reachable ops (LazyVector.moveCtor X).1
  | moveSource (X : LazyVector T) :
      Reachable ops X → Reachable ops (LazyVector.moveCtor X).2
  | assignReceiver (Y X Y1 X1 : LazyVector T) :
      Reachable ops Y → Reachable ops X →
      LazyVector.operatorAssign ops Y X = Outcome.returned () (Y1, X1) → Reachable ops Y1
  | assignSource (Y X Y1 X1 : LazyVector T) :
      Reachable ops Y → Reachable ops X →
      LazyVector.operatorAssign ops Y X = Outcome.returned () (Y1, X1) → Reachable ops X1
  | indexStore (s s1 : LazyVector T) (index : Int) (value : T) :
      Reachable ops s → LazyVector.operatorIndexStore s index value = Outcome.returned () s1 →
      Reachable ops s1

end LazyVec

/-! ## Lemmas on the forcing loop and on the calls -/

namespace LazyVec

variable {T : Type}

/-- The loop runs through when the right operand reaches far enough and the
element operation is defined at every pair it meets; the result then holds the
element-wise values. -/
theorem elementLoop_some (f : T → T → Option T) (other : List T) :
    ∀ (rest : List T) (i : Nat), i + rest.length ≤ other.length →
      (∀ j x y, rest[j]? = some x → other[i + j]? = some y → (f x y).isSome = true) →
      ∃ r, LazyVector.elementLoop f other i rest = some r ∧ r.length = rest.length ∧
        ∀ j, j < rest.length →
          ∃ x y z, rest[j]? = some x ∧ other[i + j]? = some y ∧ r[j]? = some z ∧
            f x y = some z := by
  intro rest
  induction rest with
  | nil =>
    intro i _ _
    exact ⟨[], rfl, rfl, fun j hj => absurd hj (Nat.not_lt_zero j)⟩
  | cons x rest ih =>
    intro i hlen hdef
    have hlen1 : i + (rest.length + 1) ≤ other.length := by simpa using hlen
    have hi : i < other.length := by omega
    have hy : other[i]? = some other[i] := List.getElem?_eq_getElem hi
    have hfx : (f x other[i]).isSome = true :=
      hdef 0 x other[i] (by simp) (by simp)
    obtain ⟨z, hz⟩ := Option.isSome_iff_exists.mp hfx
    have hdef1 : ∀ j a b, rest[j]? = some a → other[i + 1 + j]? = some b →
        (f a b).isSome = true := by
      intro j a b ha hb
      refine hdef (j + 1) a b (by simpa using ha) ?_
      have hidx : i + (j + 1) = i + 1 + j := by omega
      rw [hidx]
      exact hb
    obtain ⟨zs, hzs, hzlen, hzidx⟩ := ih (i + 1) (by omega) hdef1
    refine ⟨z :: zs, ?_, by simp [hzlen], ?_⟩
    · simp [LazyVector.elementLoop, hy, hz, hzs]
    · intro j hj
      cases j with
      | zero => exact ⟨x, other[i], z, by simp, by simp, by simp, hz⟩
      | succ k =>
        have hk : k < rest.length := by simpa using hj
        obtain ⟨a, b, c, ha, hb, hc, hfab⟩ := hzidx k hk
        refine ⟨a, b, c, by simpa using ha, ?_, by simpa using hc, hfab⟩
        have hidx : i + (k + 1) = i + 1 + k := by omega
        rw [hidx]
        exact hb


/-- What a tag other than `Unknown` makes `performOperation` compute. -/
theorem performOperation_pending (ops : Arithmetic T) (v ov : List T) (tag : Operator)
    (htag : tag ≠ Operator.Unknown) :
    LazyVector.performOperation ops ⟨v, tag, ov⟩ =
      match LazyVector.elementLoop (ops.apply tag) ov 0 v with
      | none => Outcome.undefined
      | some r => Outcome.returned () ⟨r, Operator.Unknown, []⟩ := by
  have hadd : (fun a b => some (ops.add a b)) = ops.apply Operator.Add := rfl
  have hsub : (fun a b => some (ops.sub a b)) = ops.apply Operator.Subtract := rfl
  have hmul : (fun a b => some (ops.mul a b)) = ops.apply Operator.Multiply := rfl
  have hdiv : ops.div = ops.apply Operator.Divide := rfl
  cases tag with
  | Add =>
    simp only [LazyVector.performOperation, LazyVector.addVectors, hadd]
    cases LazyVector.elementLoop (ops.apply Operator.Add) ov 0 v <;> rfl
  | Subtract =>
    simp only [LazyVector.performOperation, LazyVector.subtractVectors, hsub]
    cases LazyVector.elementLoop (ops.apply Operator.Subtract) ov 0 v <;> rfl
  | Multiply =>
    simp only [LazyVector.performOperation, LazyVector.multiplyVectors, hmul]
    cases LazyVector.elementLoop (ops.apply Operator.Multiply) ov 0 v <;> rfl
  | Divide =>
    simp only [LazyVector.performOperation, LazyVector.divideVectors, hdiv]
    cases LazyVector.elementLoop (ops.apply Operator.Divide) ov 0 v <;> rfl
  | Unknown => exact absurd rfl htag

/-- Copy construction from a source with a pending operation. -/
theorem copyCtor_pending (ops : Arithmetic T) (v ov : List T) (tag : Operator)
    (htag : tag ≠ Operator.Unknown) :
    LazyVector.copyCtor ops ⟨v, tag, ov⟩ =
      match LazyVector.elementLoop (ops.apply tag) ov 0 v with
      | none => Outcome.undefined
      | some r => Outcome.returned ⟨r, Operator.Unknown, []⟩ ⟨v, tag, ov⟩ := by
  simp only [LazyVector.copyCtor, ne_eq, htag, not_false_eq_true, if_true,
    performOperation_pending ops v ov tag htag]
  cases LazyVector.elementLoop (ops.apply tag) ov 0 v <;> rfl

/-- Copy construction from a source without a pending operation. -/
theorem copyCtor_idle (ops : Arithmetic T) (v ov : List T) :
    LazyVector.copyCtor ops ⟨v, Operator.Unknown, ov⟩ =
      Outcome.returned ⟨v, Operator.Unknown, ov⟩ ⟨v, Operator.Unknown, ov⟩ := by
  simp [LazyVector.copyCtor]

/-- The tag of a binary operator is never `Unknown`. -/
theorem BinaryOperator.tag_ne_unknown (op : BinaryOperator) : op.tag ≠ Operator.Unknown := by
  cases op <;> simp [BinaryOperator.tag]

/-- A binary operator call, unfolded: the size check, then the forced copy of
the receiver that now carries the operation. -/
theorem BinaryOperator.call_eq (ops : Arithmetic T) (op : BinaryOperator) (A B : LazyVector T) :
    op.call ops A B =
      if A.m_stlVector.length ≠ B.m_stlVector.length then
        Outcome.thrown (Exception.SizeMismatch op.tag) (A, B)
      else
        match LazyVector.elementLoop (ops.apply op.tag) B.m_stlVector 0 A.m_stlVector with
        | none => Outcome.undefined
        | some r =>
          Outcome.returned ⟨r, Operator.Unknown, []⟩
            (⟨A.m_stlVector, op.tag, B.m_stlVector⟩, B) := by
  by_cases hlen : A.m_stlVector.length = B.m_stlVector.length
  · cases op <;>
      simp only [BinaryOperator.call, BinaryOperator.tag, LazyVector.operatorAdd,
        LazyVector.operatorSub, LazyVector.operatorMul, LazyVector.operatorDiv,
        LazyVector.size, LazyVector.returnCopy, hlen, ne_eq, not_true_eq_false, if_false] <;>
      rw [copyCtor_pending ops _ _ _ (by decide)] <;>
      cases LazyVector.elementLoop (ops.apply _) B.m_stlVector 0 A.m_stlVector <;> rfl
  · cases op <;>
      simp [BinaryOperator.call, BinaryOperator.tag, LazyVector.operatorAdd,
        LazyVector.operatorSub, LazyVector.operatorMul, LazyVector.operatorDiv,
        LazyVector.size, hlen]

/-- With an operand of the length of the elements, the loop a tag selects
runs through when the operation of `T` is defined at every pair of elements
it meets, and yields the element-wise values. -/
theorem forcing_of_defined (ops : Arithmetic T) (tag : Operator) (v ov : List T)
    (hlen : ov.length = v.length)
    (hdef : ∀ (i : Nat) (hx : i < v.length) (hy : i < ov.length),
      (ops.apply tag v[i] ov[i]).isSome = true) :
    ∃ r, LazyVector.elementLoop (ops.apply tag) ov 0 v = some r ∧
      ops.elementwise tag v ov r := by
  have hdef1 : ∀ j x y, v[j]? = some x → ov[0 + j]? = some y →
      (ops.apply tag x y).isSome = true := by
    intro j x y hx hy
    rw [Nat.zero_add] at hy
    obtain ⟨hjx, hxe⟩ := List.getElem?_eq_some.mp hx
    obtain ⟨hjy, hye⟩ := List.getElem?_eq_some.mp hy
    rw [← hxe, ← hye]
    exact hdef j hjx hjy
  obtain ⟨r, hr, hrlen, hidx⟩ :=
    elementLoop_some (ops.apply tag) ov v 0 (by omega) hdef1
  refine ⟨r, hr, hrlen, ?_⟩
  intro i hx hy hri
  obtain ⟨a, b, c, ha, hb, hc, hv⟩ := hidx i hx
  rw [List.getElem?_eq_getElem hx] at ha
  rw [Nat.zero_add, List.getElem?_eq_getElem hy] at hb
  rw [List.getElem?_eq_getElem hri] at hc
  cases ha
  cases hb
  cases hc
  exact hv

/-- With an operand of the length of the elements and no zero divisor, the
loop a tag selects runs through and yields the element-wise values. -/
theorem forcing_defined (ops : Numeric T) (tag : Operator) (htag : tag ≠ Operator.Unknown)
    (v ov : List T) (hlen : ov.length = v.length) (hdiv : ops.divisorsOk tag ov) :
    ∃ r, LazyVector.elementLoop (ops.apply tag) ov 0 v = some r ∧
      ops.elementwise tag v ov r := by
  refine forcing_of_defined ops tag v ov hlen ?_
  intro i hx hy
  cases tag with
  | Add => rfl
  | Subtract => rfl
  | Multiply => rfl
  | Divide => exact ops.div_defined v[i] ov[i] (hdiv rfl ov[i] (List.getElem_mem hy))
  | Unknown => exact absurd rfl htag

/-- Assignment from a source with a pending operation, unfolded. -/
theorem operatorAssign_pending (ops : Arithmetic T) (Y : LazyVector T) (v ov : List T)
    (tag : Operator) (htag : tag ≠ Operator.Unknown) :
    LazyVector.operatorAssign ops Y ⟨v, tag, ov⟩ =
      match LazyVector.elementLoop (ops.apply tag) ov 0 v with
      | none => Outcome.undefined
      | some r =>
        Outcome.returned () (⟨r, Operator.Unknown, []⟩, ⟨v, Operator.Unknown, []⟩) := by
  simp only [LazyVector.operatorAssign, htag, if_false,
    performOperation_pending ops v ov tag htag]
  cases LazyVector.elementLoop (ops.apply tag) ov 0 v <;> rfl

/-- What `PushValue` does in every state: it throws exactly when the operand
vector is not empty, and otherwise appends. -/
theorem PushValue_eq (self : LazyVector T) (value : T) :
    LazyVector.PushValue self value =
      if self.m_stlOtherVector.isEmpty then
        Outcome.returned () ⟨self.m_stlVector ++ [value], self.m_eOperator,
          self.m_stlOtherVector⟩
      else Outcome.thrown Exception.InvalidState self := by
  obtain ⟨v, tag, ov⟩ := self
  cases ov <;> simp [LazyVector.PushValue]

/-- The value a binary operator returns never carries a pending operation. -/
theorem BinaryOperator.call_value_forced (ops : Arithmetic T) (op : BinaryOperator)
    (A B R : LazyVector T) (s : LazyVector T × LazyVector T)
    (h : op.call ops A B = Outcome.returned R s) :
    R.m_eOperator = Operator.Unknown ∧ R.m_stlOtherVector = [] := by
  rw [BinaryOperator.call_eq] at h
  split at h
  · cases h
  · split at h
    · cases h
    · injection h with hR _
      subst hR
      exact ⟨rfl, rfl⟩

/-! ## The claims -/

/-- Claim C4, at the input where the code departs from it.  Two default
constructed vectors have equal sizes, so `+` succeeds and leaves the receiver
with `Add` pending and an empty operand; `PushValue` on that receiver does not
throw and appends, the operation still pending. -/
theorem push_after_add_of_empty_vectors_succeeds :
    LazyVector.operatorAdd intArithmetic LazyVector.defaultCtor LazyVector.defaultCtor =
        Outcome.returned ⟨[], Operator.Unknown, []⟩
          (⟨[], Operator.Add, []⟩, ⟨[], Operator.Unknown, []⟩) ∧
      LazyVector.PushValue (⟨[], Operator.Add, []⟩ : LazyVector Int) 7 =
        Outcome.returned () ⟨[7], Operator.Add, []⟩ := by
  decide

/-- Claim C5.  A binary operator called on receiver `A` and operand `B`,
whatever their pending state, throws the size-mismatch `std::invalid_argument`
when the element counts differ, throws nothing when they agree, and a call
that throws leaves the elements of `A` and of `B` as they were. -/
theorem size_mismatch_iff_lengths_differ (ops : Arithmetic T) (op : BinaryOperator)
    (A B : LazyVector T) :
    ((∃ s, op.call ops A B = Outcome.thrown (Exception.SizeMismatch op.tag) s) ↔
        A.m_stlVector.length ≠ B.m_stlVector.length) ∧
      ∀ e s, op.call ops A B = Outcome.thrown e s →
        e = Exception.SizeMismatch op.tag ∧
        s.1.m_stlVector = A.m_stlVector ∧ s.2.m_stlVector = B.m_stlVector := by
  have hthrown : ∀ e s, op.call ops A B = Outcome.thrown e s →
      A.m_stlVector.length ≠ B.m_stlVector.length ∧
        e = Exception.SizeMismatch op.tag ∧ s = (A, B) := by
    intro e s h
    rw [BinaryOperator.call_eq] at h
    split at h
    · rename_i hne
      injection h with he hs
      exact ⟨hne, he.symm, hs.symm⟩
    · split at h <;> cases h
  refine ⟨⟨?_, ?_⟩, ?_⟩
  · rintro ⟨s, hs⟩
    exact (hthrown _ s hs).1
  · intro hne
    refine ⟨(A, B), ?_⟩
    rw [BinaryOperator.call_eq, if_pos hne]
  · intro e s h
    obtain ⟨_, he, hs⟩ := hthrown e s h
    subst hs
    exact ⟨he, rfl, rfl⟩

/-- Instance of claim C5: `*` on a vector of 3 and a vector of 5 elements, the
receiver already pending, throws and leaves both element vectors alone. -/
theorem size_mismatch_iff_lengths_differ_witness :
    ∃ s, BinaryOperator.times.call intArithmetic ⟨[1, 2, 3], Operator.Add, [4, 5, 6]⟩
        ⟨[1, 2, 3, 4, 5], Operator.Unknown, []⟩ =
        Outcome.thrown (Exception.SizeMismatch Operator.Multiply) s ∧
      s.1.m_stlVector = [1, 2, 3] ∧ s.2.m_stlVector = [1, 2, 3, 4, 5] := by
  have h := size_mismatch_iff_lengths_differ intArithmetic BinaryOperator.times
    ⟨[1, 2, 3], Operator.Add, [4, 5, 6]⟩ ⟨[1, 2, 3, 4, 5], Operator.Unknown, []⟩
  obtain ⟨s, hs⟩ := h.1.mpr (by decide)
  exact ⟨s, hs, (h.2 _ s hs).2⟩

/-- Claim C7, at an input where the code departs from it.  `[1,2,3] + [10,20,30]`
returns a value that is already computed: elements `[11,22,33]`, no pending
operation, empty operand.  Only the receiver is left pending. -/
theorem add_returns_forced_value :
    LazyVector.operatorAdd intArithmetic ⟨[1, 2, 3], Operator.Unknown, []⟩
        ⟨[10, 20, 30], Operator.Unknown, []⟩ =
      Outcome.returned ⟨[11, 22, 33], Operator.Unknown, []⟩
        (⟨[1, 2, 3], Operator.Add, [10, 20, 30]⟩, ⟨[10, 20, 30], Operator.Unknown, []⟩) := by
  decide

/-- Claim C8.  Move construction hands the three fields of the source to the
new object as they are, a pending operation included, and leaves the source
with no element, no pending operation and an empty operand. -/
theorem move_transfers_without_forcing (X : LazyVector T) :
    (LazyVector.moveCtor X).1.m_stlVector = X.m_stlVector ∧
      (LazyVector.moveCtor X).1.m_eOperator = X.m_eOperator ∧
      (LazyVector.moveCtor X).1.m_stlOtherVector = X.m_stlOtherVector ∧
      (LazyVector.moveCtor X).2.m_stlVector = [] ∧
      (LazyVector.moveCtor X).2.m_eOperator = Operator.Unknown ∧
      (LazyVector.moveCtor X).2.m_stlOtherVector = [] :=
  ⟨rfl, rfl, rfl, rfl, rfl, rfl⟩

/-- Instance of claim C8: moving `([1,2,3], Add, [10,20,30])`. -/
theorem move_transfers_without_forcing_witness :
    LazyVector.moveCtor (⟨[1, 2, 3], Operator.Add, [10, 20, 30]⟩ : LazyVector Int) =
      (⟨[1, 2, 3], Operator.Add, [10, 20, 30]⟩, ⟨[], Operator.Unknown, []⟩) := by
  have h := move_transfers_without_forcing
    (⟨[1, 2, 3], Operator.Add, [10, 20, 30]⟩ : LazyVector Int)
  generalize LazyVector.moveCtor (⟨[1, 2, 3], Operator.Add, [10, 20, 30]⟩ : LazyVector Int) = p
    at h
  obtain ⟨⟨v1, t1, o1⟩, ⟨v2, t2, o2⟩⟩ := p
  obtain ⟨h1, h2, h3, h4, h5, h6⟩ := h
  simp only at h1 h2 h3 h4 h5 h6
  subst h1 h2 h3 h4 h5 h6
  rfl

/-- Claim C9.  When the source `X` has no pending operation, `Y = X` returns
and changes nothing: the receiver keeps its three fields (it does not take the
elements of `X`) and `X` is as before. -/
theorem assign_from_idle_is_noop (ops : Arithmetic T) (Y X : LazyVector T)
    (hX : X.m_eOperator = Operator.Unknown) :
    LazyVector.operatorAssign ops Y X = Outcome.returned () (Y, X) := by
  simp [LazyVector.operatorAssign, hX]

/-- Instance of claim C9: a receiver holding `[5]` assigned from `[1,2,3]`
still holds `[5]`. -/
theorem assign_from_idle_is_noop_witness :
    LazyVector.operatorAssign intArithmetic ⟨[5], Operator.Unknown, []⟩
        ⟨[1, 2, 3], Operator.Unknown, []⟩ =
      Outcome.returned () (⟨[5], Operator.Unknown, []⟩, ⟨[1, 2, 3], Operator.Unknown, []⟩) :=
  assign_from_idle_is_noop intArithmetic ⟨[5], Operator.Unknown, []⟩
    ⟨[1, 2, 3], Operator.Unknown, []⟩ rfl

/-- Claim C10, at inputs where the code departs from it.  Assigning a source
holding `[1,2,3]` with nothing pending into a default constructed receiver
leaves the receiver without elements; and so does assigning the value that
`[1,2,3] + [10,20,30]` returned, since that value has nothing pending. -/
theorem assign_does_not_take_idle_source_value :
    LazyVector.operatorAssign intArithmetic LazyVector.defaultCtor
        ⟨[1, 2, 3], Operator.Unknown, []⟩ =
      Outcome.returned () (⟨[], Operator.Unknown, []⟩, ⟨[1, 2, 3], Operator.Unknown, []⟩) ∧
    ∃ R s, LazyVector.operatorAdd intArithmetic ⟨[1, 2, 3], Operator.Unknown, []⟩
        ⟨[10, 20, 30], Operator.Unknown, []⟩ = Outcome.returned R s ∧
      R.m_stlVector = [11, 22, 33] ∧
      LazyVector.operatorAssign intArithmetic LazyVector.defaultCtor R =
        Outcome.returned () (⟨[], Operator.Unknown, []⟩, R) :=
  ⟨by decide, ⟨[11, 22, 33], Operator.Unknown, []⟩,
    (⟨[1, 2, 3], Operator.Add, [10, 20, 30]⟩, ⟨[10, 20, 30], Operator.Unknown, []⟩),
    by decide, rfl, by decide⟩

end LazyVec

/-! ## Lemmas on the outcomes of the calls and on `int` division -/

namespace LazyVec

variable {T : Type}

/-- A returning `PushValue` found an empty operand and appended. -/
theorem PushValue_returned (s s1 : LazyVector T) (value : T)
    (h : LazyVector.PushValue s value = Outcome.returned () s1) :
    s.m_stlOtherVector = [] ∧ s1 = ⟨s.m_stlVector ++ [value], s.m_eOperator, []⟩ := by
  obtain ⟨v, tag, ov⟩ := s
  cases ov with
  | nil =>
    simp only [LazyVector.PushValue, List.isEmpty_nil, Bool.not_true, Bool.false_eq_true,
      if_false] at h
    injection h with _ hs
    exact ⟨rfl, hs.symm⟩
  | cons y ys => simp [LazyVector.PushValue] at h

/-- A throwing `PushValue` throws the invalid-state exception and leaves the
object as it was. -/
theorem PushValue_thrown (s s1 : LazyVector T) (value : T) (e : Exception)
    (h : LazyVector.PushValue s value = Outcome.thrown e s1) :
    e = Exception.InvalidState ∧ s1 = s ∧ s.m_stlOtherVector ≠ [] := by
  obtain ⟨v, tag, ov⟩ := s
  cases ov with
  | nil => simp [LazyVector.PushValue] at h
  | cons y ys =>
    simp only [LazyVector.PushValue, List.isEmpty_cons, Bool.not_false, if_true] at h
    injection h with he hs
    exact ⟨he.symm, hs.symm, by simp⟩

/-- A returning binary operator call: equal lengths, a forced value, the
operation recorded on the receiver, the argument untouched. -/
theorem BinaryOperator.call_returned (ops : Arithmetic T) (op : BinaryOperator)
    (A B R A1 B1 : LazyVector T) (h : op.call ops A B = Outcome.returned R (A1, B1)) :
    A.m_stlVector.length = B.m_stlVector.length ∧
      LazyVector.elementLoop (ops.apply op.tag) B.m_stlVector 0 A.m_stlVector =
        some R.m_stlVector ∧
      R.m_eOperator = Operator.Unknown ∧ R.m_stlOtherVector = [] ∧
      A1 = ⟨A.m_stlVector, op.tag, B.m_stlVector⟩ ∧ B1 = B := by
  rw [BinaryOperator.call_eq] at h
  split at h
  · cases h
  · rename_i hlen
    split at h
    · cases h
    · rename_i r hr
      injection h with hR hs
      injection hs with hA hB
      subst hR hA hB
      exact ⟨not_not.mp hlen, hr, rfl, rfl, rfl, rfl⟩

/-- A throwing binary operator call: differing lengths, the size-mismatch
exception, both objects untouched. -/
theorem BinaryOperator.call_thrown (ops : Arithmetic T) (op : BinaryOperator)
    (A B A1 B1 : LazyVector T) (e : Exception)
    (h : op.call ops A B = Outcome.thrown e (A1, B1)) :
    A.m_stlVector.length ≠ B.m_stlVector.length ∧
      e = Exception.SizeMismatch op.tag ∧ A1 = A ∧ B1 = B := by
  rw [BinaryOperator.call_eq] at h
  split at h
  · rename_i hne
    injection h with he hs
    injection hs with hA hB
    exact ⟨hne, he.symm, hA.symm, hB.symm⟩
  · split at h <;> cases h

/-- The copy constructor never throws. -/
theorem copyCtor_not_thrown (ops : Arithmetic T) (X s : LazyVector T) (e : Exception) :
    LazyVector.copyCtor ops X ≠ Outcome.thrown e s := by
  obtain ⟨v, tag, ov⟩ := X
  by_cases htag : tag = Operator.Unknown
  · subst htag
    rw [copyCtor_idle]
    intro h
    cases h
  · rw [copyCtor_pending ops v ov tag htag]
    split <;> intro h <;> cases h

/-- A returning copy construction: the source untouched, the new object equal
to an idle source or else forced. -/
theorem copyCtor_returned (ops : Arithmetic T) (X Y X1 : LazyVector T)
    (h : LazyVector.copyCtor ops X = Outcome.returned Y X1) :
    X1 = X ∧
      ((X.m_eOperator = Operator.Unknown ∧ Y = X) ∨
        (X.m_eOperator ≠ Operator.Unknown ∧
          LazyVector.elementLoop (ops.apply X.m_eOperator) X.m_stlOtherVector 0
            X.m_stlVector = some Y.m_stlVector ∧
          Y.m_eOperator = Operator.Unknown ∧ Y.m_stlOtherVector = [])) := by
  obtain ⟨v, tag, ov⟩ := X
  by_cases htag : tag = Operator.Unknown
  · subst htag
    rw [copyCtor_idle] at h
    injection h with hY hX
    exact ⟨hX.symm, Or.inl ⟨rfl, hY.symm⟩⟩
  · rw [copyCtor_pending ops v ov tag htag] at h
    split at h
    · cases h
    · rename_i r hr
      injection h with hY hX
      subst hY
      exact ⟨hX.symm, Or.inr ⟨htag, hr, rfl, rfl⟩⟩

/-- Assignment never throws. -/
theorem operatorAssign_not_thrown (ops : Arithmetic T) (Y X : LazyVector T)
    (s : LazyVector T × LazyVector T) (e : Exception) :
    LazyVector.operatorAssign ops Y X ≠ Outcome.thrown e s := by
  obtain ⟨v, tag, ov⟩ := X
  by_cases htag : tag = Operator.Unknown
  · subst htag
    simp [LazyVector.operatorAssign]
  · rw [operatorAssign_pending ops Y v ov tag htag]
    split <;> intro h <;> cases h

/-- A returning assignment: nothing changed for an idle source, else the
receiver forced and the source cleared. -/
theorem operatorAssign_returned (ops : Arithmetic T) (Y X Y1 X1 : LazyVector T)
    (h : LazyVector.operatorAssign ops Y X = Outcome.returned () (Y1, X1)) :
    (X.m_eOperator = Operator.Unknown ∧ Y1 = Y ∧ X1 = X) ∨
      (X.m_eOperator ≠ Operator.Unknown ∧
        LazyVector.elementLoop (ops.apply X.m_eOperator) X.m_stlOtherVector 0
          X.m_stlVector = some Y1.m_stlVector ∧
        Y1.m_eOperator = Operator.Unknown ∧ Y1.m_stlOtherVector = [] ∧
        X1 = ⟨X.m_stlVector, Operator.Unknown, []⟩) := by
  obtain ⟨v, tag, ov⟩ := X
  by_cases htag : tag = Operator.Unknown
  · subst htag
    simp only [LazyVector.operatorAssign, if_true] at h
    injection h with _ hs
    injection hs with hY hX
    exact Or.inl ⟨rfl, hY.symm, hX.symm⟩
  · rw [operatorAssign_pending ops Y v ov tag htag] at h
    split at h
    · cases h
    · rename_i r hr
      injection h with _ hs
      injection hs with hY hX
      subst hY hX
      exact Or.inr ⟨htag, hr, rfl, rfl, rfl⟩

/-- The text of the printing loop on a non-empty vector is the renderings
joined by single spaces, followed by one more space. -/
theorem printLoop_cons (render : T → String) (rest : List T) :
    ∀ x : T, LazyVector.printLoop render (x :: rest) =
      joinedBySpaces render (x :: rest) ++ " " := by
  induction rest with
  | nil =>
    intro x
    simp [LazyVector.printLoop, joinedBySpaces]
  | cons y rest ih =>
    intro x
    have hstep : LazyVector.printLoop render (x :: y :: rest) =
        render x ++ " " ++ LazyVector.printLoop render (y :: rest) := rfl
    have hjoin : joinedBySpaces render (x :: y :: rest) =
        render x ++ " " ++ joinedBySpaces render (y :: rest) := rfl
    rw [hstep, hjoin, ih y, String.append_assoc, String.append_assoc, String.append_assoc]

/-- A returning write through `operator[]` changes the elements only, and not
their number. -/
theorem operatorIndexStore_returned (s s1 : LazyVector T) (index : Int) (value : T)
    (h : LazyVector.operatorIndexStore s index value = Outcome.returned () s1) :
    s1.m_eOperator = s.m_eOperator ∧ s1.m_stlOtherVector = s.m_stlOtherVector ∧
      s1.m_stlVector.length = s.m_stlVector.length := by
  unfold LazyVector.operatorIndexStore at h
  split at h
  · injection h with _ hs
    subst hs
    exact ⟨rfl, rfl, by simp⟩
  · cases h

/-- The remainder of the truncated division is smaller in size than a non-zero
divisor and has the sign of the dividend. -/
theorem tmod_bounds (a b : Int) (hb : b ≠ 0) :
    (Int.tmod a b).natAbs < b.natAbs ∧ (0 ≤ a → 0 ≤ Int.tmod a b) ∧
      (a ≤ 0 → Int.tmod a b ≤ 0) := by
  have hbpos : 0 < b.natAbs := Int.natAbs_pos.mpr hb
  have habs : (Int.tmod a b).natAbs = a.natAbs % b.natAbs := by
    cases a <;> cases b <;> simp [Int.tmod, Int.natAbs_neg] <;> rfl
  refine ⟨?_, ?_, ?_⟩
  · rw [habs]
    exact Nat.mod_lt _ hbpos
  · intro ha
    exact Int.tmod_nonneg b ha
  · intro ha
    cases a with
    | ofNat m =>
      have hm : m = 0 := by
        have h0 : (m : Int) ≤ 0 := ha
        omega
      subst hm
      simp
    | negSucc m =>
      cases b with
      | ofNat n =>
        show -Int.ofNat (Nat.succ m % n) ≤ 0
        have : (0 : Int) ≤ Int.ofNat (Nat.succ m % n) := Int.ofNat_nonneg _
        omega
      | negSucc n =>
        show -Int.ofNat (Nat.succ m % Nat.succ n) ≤ 0
        have : (0 : Int) ≤ Int.ofNat (Nat.succ m % Nat.succ n) := Int.ofNat_nonneg _
        omega

/-- The truncated quotient of an `int` by a non-zero divisor is an `int`, the
pair `-2147483648 / -1` apart. -/
theorem isInt_tdiv (a b : Int) (ha : isInt a) (hb0 : b ≠ 0)
    (hpair : ¬(a = -2147483648 ∧ b = -1)) : isInt (Int.tdiv a b) := by
  unfold isInt at *
  have habs : (Int.tdiv a b).natAbs = a.natAbs / b.natAbs := Int.natAbs_tdiv a b
  have hbpos : 0 < b.natAbs := Int.natAbs_pos.mpr hb0
  by_cases hb1 : b.natAbs = 1
  · have hcases : b = 1 ∨ b = -1 := by omega
    rcases hcases with h | h
    · subst h
      simp only [Int.tdiv_one]
      exact ha
    · subst h
      have : Int.tdiv a (-1) = -a := by
        rw [Int.tdiv_neg, Int.tdiv_one]
      rw [this]
      omega
  · have h2 : 2 ≤ b.natAbs := by omega
    have hle : a.natAbs / b.natAbs ≤ a.natAbs / 2 := Nat.div_le_div_left h2 (by decide)
    omega
/-- Division of `int` is defined exactly for a non-zero divisor and a pair
other than `-2147483648 / -1`. -/
theorem intDiv_isSome_iff (a b : Int) :
    (intDiv a b).isSome = true ↔ b ≠ 0 ∧ ¬(a = -2147483648 ∧ b = -1) := by
  unfold intDiv
  by_cases hb : b = 0
  · simp [hb]
  · by_cases hp : a = -2147483648 ∧ b = -1
    · simp [hb, hp]
    · simp [hb, hp]

/-- Where division of `int` is defined its value is the quotient truncated
toward zero: an `int` for an `int` dividend, with a remainder smaller in size
than the divisor and of the sign of the dividend. -/
theorem intDiv_truncates (a b q : Int) (h : intDiv a b = some q) :
    q = Int.tdiv a b ∧ (isInt a → isInt q) ∧
      ∃ rem : Int, a = q * b + rem ∧ rem.natAbs < b.natAbs ∧
        (0 ≤ a → 0 ≤ rem) ∧ (a ≤ 0 → rem ≤ 0) := by
  have hsome : (intDiv a b).isSome = true := by rw [h]; rfl
  obtain ⟨hb0, hpair⟩ := (intDiv_isSome_iff a b).mp hsome
  have hq : q = Int.tdiv a b := by
    simp only [intDiv, hb0, hpair, if_false] at h
    injection h with h
    exact h.symm
  obtain ⟨hlt, hpos, hneg⟩ := tmod_bounds a b hb0
  refine ⟨hq, ?_, Int.tmod a b, ?_, hlt, hpos, hneg⟩
  · intro ha
    rw [hq]
    exact isInt_tdiv a b ha hb0 hpair
  · rw [hq, Int.tdiv_add_tmod']

/-! ## The claims, continued -/

/-- Claim C11.  The demonstration program: with `intVector1` and `intVector2`
filled by `PushValue` with `1..5` and `6..10`, the four declarations in the
order of `main` give `added = [7,9,11,13,15]`, `subtracted = [5,5,5,5,5]`,
`multiplied = [6,14,24,36,50]`, `divided = [6,3,2,2,2]`, and at the end the
elements of the two vectors are still `[1,2,3,4,5]` and `[6,7,8,9,10]`. -/
theorem main_computes_the_four_results :
    ∃ r, main = some r ∧
      r.added.m_stlVector = [7, 9, 11, 13, 15] ∧
      r.subtracted.m_stlVector = [5, 5, 5, 5, 5] ∧
      r.multiplied.m_stlVector = [6, 14, 24, 36, 50] ∧
      r.divided.m_stlVector = [6, 3, 2, 2, 2] ∧
      r.intVector1.m_stlVector = [1, 2, 3, 4, 5] ∧
      r.intVector2.m_stlVector = [6, 7, 8, 9, 10] :=
  ⟨{ intVector1 := ⟨[1, 2, 3, 4, 5], Operator.Multiply, [6, 7, 8, 9, 10]⟩,
     intVector2 := ⟨[6, 7, 8, 9, 10], Operator.Divide, [1, 2, 3, 4, 5]⟩,
     added := ⟨[7, 9, 11, 13, 15], Operator.Unknown, []⟩,
     subtracted := ⟨[5, 5, 5, 5, 5], Operator.Unknown, []⟩,
     multiplied := ⟨[6, 14, 24, 36, 50], Operator.Unknown, []⟩,
     divided := ⟨[6, 3, 2, 2, 2], Operator.Unknown, []⟩,
     output := "Original Vector 1: 1 2 3 4 5 \nOriginal Vector 2: 6 7 8 9 10 \nAdded: 7 9 11 13 15 \nSubtracted: (Vec2 - Vec1) 5 5 5 5 5 \nMultiplied: 6 14 24 36 50 \nDivided: (Vec2 / Vec1) 6 3 2 2 2 \n" },
    rfl, rfl, rfl, rfl, rfl, rfl, rfl⟩

/-- Claim C12.  Every reported error is atomic.  A `PushValue` that throws
throws the invalid-state exception and leaves the three fields of the receiver
as they were; a binary operator that throws throws the size-mismatch exception
and leaves the three fields of the receiver and of the argument as they were. -/
theorem reported_errors_leave_state_unchanged (ops : Arithmetic T) :
    (∀ (self s : LazyVector T) (value : T) (e : Exception),
        LazyVector.PushValue self value = Outcome.thrown e s →
        e = Exception.InvalidState ∧ s = self) ∧
      (∀ (op : BinaryOperator) (A B : LazyVector T) (s : LazyVector T × LazyVector T)
          (e : Exception),
        op.call ops A B = Outcome.thrown e s →
        e = Exception.SizeMismatch op.tag ∧ s = (A, B)) := by
  constructor
  · intro self s value e h
    obtain ⟨he, hs, _⟩ := PushValue_thrown self s value e h
    exact ⟨he, hs⟩
  · intro op A B s e h
    obtain ⟨A1, B1⟩ := s
    obtain ⟨_, he, hA, hB⟩ := BinaryOperator.call_thrown ops op A B A1 B1 e h
    subst hA hB
    exact ⟨he, rfl⟩

/-- Instance of claim C12: both errors do occur, and a receiver pending `Add`
keeps that operation and its operand through a size-mismatched `*`. -/
theorem reported_errors_leave_state_unchanged_witness :
    LazyVector.PushValue (⟨[1, 2], Operator.Add, [3, 4]⟩ : LazyVector Int) 9 =
        Outcome.thrown Exception.InvalidState ⟨[1, 2], Operator.Add, [3, 4]⟩ ∧
      BinaryOperator.times.call intArithmetic ⟨[1, 2], Operator.Add, [3, 4]⟩
          ⟨[5, 6, 7], Operator.Unknown, []⟩ =
        Outcome.thrown (Exception.SizeMismatch Operator.Multiply)
          (⟨[1, 2], Operator.Add, [3, 4]⟩, ⟨[5, 6, 7], Operator.Unknown, []⟩) := by
  have hpush : LazyVector.PushValue (⟨[1, 2], Operator.Add, [3, 4]⟩ : LazyVector Int) 9 =
      Outcome.thrown Exception.InvalidState ⟨[1, 2], Operator.Add, [3, 4]⟩ := by decide
  have hcall : BinaryOperator.times.call intArithmetic ⟨[1, 2], Operator.Add, [3, 4]⟩
      ⟨[5, 6, 7], Operator.Unknown, []⟩ =
      Outcome.thrown (Exception.SizeMismatch Operator.Multiply)
        (⟨[1, 2], Operator.Add, [3, 4]⟩, ⟨[5, 6, 7], Operator.Unknown, []⟩) := by decide
  have h := reported_errors_leave_state_unchanged intArithmetic
  have h1 := h.1 _ _ _ _ hpush
  have h2 := h.2 _ _ _ _ _ hcall
  rw [h1.1, h1.2] at hpush
  exact ⟨hpush, hcall⟩

/-- Claim C13.  The accessors never force.  On every vector, a pending one
included, `size()` returns the number of elements stored, `operator[]` at an
index inside the vector designates the stored element, `GetVector()` returns
the stored elements, and each of the three calls leaves the three fields as
they were. -/
theorem accessors_read_stored_elements (self : LazyVector T) (i : Nat)
    (hi : i < self.m_stlVector.length) :
    LazyVector.sizeCall self = Outcome.returned self.m_stlVector.length self ∧
      LazyVector.operatorIndexCall self (i : Int) =
        Outcome.returned self.m_stlVector[i] self ∧
      LazyVector.GetVectorCall self = Outcome.returned self.m_stlVector self := by
  refine ⟨rfl, ?_, rfl⟩
  simp [LazyVector.operatorIndexCall, LazyVector.operatorIndex, hi]

/-- Instance of claim C13: on `([1,2,3], Add, [10,20,30])` the accessors see
`3`, `2` at index 1 and `[1,2,3]`, not the deferred `[11,22,33]`, and the
vector is still pending afterwards. -/
theorem accessors_read_stored_elements_witness :
    LazyVector.sizeCall (⟨[1, 2, 3], Operator.Add, [10, 20, 30]⟩ : LazyVector Int) =
        Outcome.returned 3 ⟨[1, 2, 3], Operator.Add, [10, 20, 30]⟩ ∧
      LazyVector.operatorIndexCall (⟨[1, 2, 3], Operator.Add, [10, 20, 30]⟩ : LazyVector Int)
          ((1 : Nat) : Int) =
        Outcome.returned 2 ⟨[1, 2, 3], Operator.Add, [10, 20, 30]⟩ ∧
      LazyVector.GetVectorCall (⟨[1, 2, 3], Operator.Add, [10, 20, 30]⟩ : LazyVector Int) =
        Outcome.returned [1, 2, 3] ⟨[1, 2, 3], Operator.Add, [10, 20, 30]⟩ :=
  accessors_read_stored_elements (⟨[1, 2, 3], Operator.Add, [10, 20, 30]⟩ : LazyVector Int) 1
    (by decide)

/-- Claim C14 as stated fails: `PrintVector` on `[1,2,3]` writes `1 2 3 `
with a space after the last element before the line break, which is not the
renderings joined by single spaces plus a line break. -/
theorem printVector_space_after_last_element :
    LazyVector.PrintVector intRender ⟨[1, 2, 3], Operator.Unknown, []⟩ = "1 2 3 \n" ∧
      LazyVector.PrintVector intRender ⟨[1, 2, 3], Operator.Unknown, []⟩ ≠
        joinedBySpaces intRender [1, 2, 3] ++ "\n" := by
  decide

/-- Claim C14, amended.  `PrintVector` writes the elements in index order,
each followed by exactly one space, then one line break: for a non-empty
vector the renderings joined by single spaces, one more space and the line
break, with nothing before the first element; for an empty vector the line
break alone. -/
theorem printVector_space_after_each_element (render : T → String) (self : LazyVector T) :
    (self.m_stlVector = [] → LazyVector.PrintVector render self = "\n") ∧
      (self.m_stlVector ≠ [] →
        LazyVector.PrintVector render self =
          joinedBySpaces render self.m_stlVector ++ " " ++ "\n") := by
  obtain ⟨v, tag, ov⟩ := self
  constructor
  · intro hv
    simp only at hv
    subst hv
    rfl
  · intro hv
    cases v with
    | nil => exact absurd rfl hv
    | cons x rest =>
      simp only [LazyVector.PrintVector]
      rw [printLoop_cons]

/-- Instance of amended claim C14: the empty vector prints a line break, and
`[7, -8]` prints `7 -8 ` and a line break. -/
theorem printVector_space_after_each_element_witness :
    LazyVector.PrintVector intRender ⟨[], Operator.Unknown, []⟩ = "\n" ∧
      LazyVector.PrintVector intRender ⟨[7, -8], Operator.Add, [1, 1]⟩ =
        joinedBySpaces intRender [7, -8] ++ " " ++ "\n" :=
  ⟨(printVector_space_after_each_element intRender ⟨[], Operator.Unknown, []⟩).1 rfl,
    (printVector_space_after_each_element intRender ⟨[7, -8], Operator.Add, [1, 1]⟩).2
      (by decide)⟩

/-- Claim C15 as stated fails: the divisor `-1` is not zero, yet forcing
`([-2147483648], Divide, [-1])` on `int` yields no result, by the forcing
dispatch as by a copy or by the operator `/` itself: the quotient `2147483648`
is no `int` and the division is undefined. -/
theorem int_divide_undefined_at_overflow_pair :
    isInt (-2147483648) ∧ isInt (-1) ∧ (∀ y ∈ [(-1 : Int)], y ≠ 0) ∧
      LazyVector.performOperation intArithmetic ⟨[-2147483648], Operator.Divide, [-1]⟩ =
        Outcome.undefined ∧
      LazyVector.copyCtor intArithmetic ⟨[-2147483648], Operator.Divide, [-1]⟩ =
        Outcome.undefined ∧
      LazyVector.operatorDiv intArithmetic ⟨[-2147483648], Operator.Unknown, []⟩
        ⟨[-1], Operator.Unknown, []⟩ = Outcome.undefined ∧
      ¬∃ r, LazyVector.performOperation intArithmetic
          ⟨[-2147483648], Operator.Divide, [-1]⟩ =
        Outcome.returned () ⟨r, Operator.Unknown, []⟩ := by
  have hrun : LazyVector.performOperation intArithmetic
      ⟨[-2147483648], Operator.Divide, [-1]⟩ = Outcome.undefined := by decide
  refine ⟨?_, ?_, by decide, hrun, by decide, by decide, ?_⟩
  · unfold isInt
    decide
  · unfold isInt
    decide
  · rintro ⟨r, hr⟩
    rw [hrun] at hr
    cases hr

/-- Claim C15, amended.  For `T = int`, forcing a pending `Divide` whose
divisors are all non-zero and in which no element `-2147483648` meets the
divisor `-1` returns, and every element of the result is the quotient
truncated toward zero, an `int` again: `elements[i] = r[i] * operand[i] + rem`
in the integers, with `rem` smaller in size than the divisor and of the sign
of `elements[i]` or zero. -/
theorem int_divide_truncates_toward_zero (v ov : List Int)
    (hv : ∀ x ∈ v, isInt x) (hlen : ov.length = v.length) (hnz : ∀ y ∈ ov, y ≠ 0)
    (hpair : ∀ (i : Nat) (hi : i < v.length) (ho : i < ov.length),
      ¬(v[i] = -2147483648 ∧ ov[i] = -1)) :
    ∃ r, LazyVector.performOperation intArithmetic ⟨v, Operator.Divide, ov⟩ =
        Outcome.returned () ⟨r, Operator.Unknown, []⟩ ∧
      r.length = v.length ∧
      ∀ (i : Nat) (hi : i < v.length) (ho : i < ov.length) (hr : i < r.length),
        r[i] = Int.tdiv v[i] ov[i] ∧ isInt r[i] ∧
        ∃ rem : Int, v[i] = r[i] * ov[i] + rem ∧ rem.natAbs < ov[i].natAbs ∧
          (0 ≤ v[i] → 0 ≤ rem) ∧ (v[i] ≤ 0 → rem ≤ 0) := by
  obtain ⟨r, hr, hrlen, hidx⟩ := forcing_of_defined intArithmetic Operator.Divide v ov hlen
    (fun i hx hy =>
      (intDiv_isSome_iff v[i] ov[i]).mpr ⟨hnz _ (List.getElem_mem hy), hpair i hx hy⟩)
  refine ⟨r, ?_, hrlen, ?_⟩
  · rw [performOperation_pending intArithmetic v ov Operator.Divide (by decide), hr]
  · intro i hi ho hri
    obtain ⟨hq, hint, hrem⟩ := intDiv_truncates v[i] ov[i] r[i] (hidx i hi ho hri)
    exact ⟨hq, hint (hv _ (List.getElem_mem hi)), hrem⟩

/-- Instance of amended claim C15: `[-7] / [2]` gives `[-3]`, with remainder
`-1`, and `[6,7,8,9,10] / [1,2,3,4,5]` gives `[6,3,2,2,2]`. -/
theorem int_divide_truncates_toward_zero_witness :
    (∃ r, LazyVector.performOperation intArithmetic ⟨[-7], Operator.Divide, [2]⟩ =
        Outcome.returned () ⟨r, Operator.Unknown, []⟩ ∧ r = [-3]) ∧
      LazyVector.performOperation intArithmetic
          ⟨[6, 7, 8, 9, 10], Operator.Divide, [1, 2, 3, 4, 5]⟩ =
        Outcome.returned () ⟨[6, 3, 2, 2, 2], Operator.Unknown, []⟩ := by
  refine ⟨?_, by decide⟩
  obtain ⟨r, hr, _, _⟩ := int_divide_truncates_toward_zero [-7] [2]
    (fun x hx => by
      have h : x = -7 := by simpa using hx
      subst h
      unfold isInt
      decide)
    rfl
    (fun y hy => by
      have h : y = 2 := by simpa using hy
      subst h
      decide)
    (by
      intro i hi _
      have h0 : i = 0 := by simpa using hi
      subst h0
      simp)
  refine ⟨r, hr, ?_⟩
  have hrun : LazyVector.performOperation intArithmetic ⟨[-7], Operator.Divide, [2]⟩ =
      Outcome.returned () ⟨[-3], Operator.Unknown, []⟩ := by decide
  rw [hrun] at hr
  injection hr with _ h1
  injection h1 with h2
  exact h2.symm

/-- Claim C16, at a state where the code departs from it.  From two default
constructed vectors, `a + b` and then `a.PushValue(7)` both succeed and leave
`a` with `Add` pending, one element and an empty operand; forcing that state
reads the operand past its end. -/
theorem length_invariant_broken_via_empty_operand :
    Reachable intArithmetic (⟨[7], Operator.Add, []⟩ : LazyVector Int) ∧
      (⟨[7], Operator.Add, []⟩ : LazyVector Int).m_stlOtherVector.length ≠
        (⟨[7], Operator.Add, []⟩ : LazyVector Int).m_stlVector.length ∧
      LazyVector.copyCtor intArithmetic ⟨[7], Operator.Add, []⟩ = Outcome.undefined := by
  refine ⟨?_, by decide, by decide⟩
  have hadd : Reachable intArithmetic (⟨[], Operator.Add, []⟩ : LazyVector Int) :=
    Reachable.binaryReceiver BinaryOperator.plus LazyVector.defaultCtor
      LazyVector.defaultCtor ⟨[], Operator.Unknown, []⟩ ⟨[], Operator.Add, []⟩
      ⟨[], Operator.Unknown, []⟩ Reachable.defaultCtor Reachable.defaultCtor (by decide)
  exact Reachable.pushValue ⟨[], Operator.Add, []⟩ ⟨[7], Operator.Add, []⟩ 7 hadd (by decide)

/-- Claim C17.  In every state an object reaches through the public
operations, no pending operation implies an empty operand; the source after a
move and the source after an assignment are such states. -/
theorem idle_implies_empty_operand (ops : Arithmetic T) (s : LazyVector T)
    (hs : Reachable ops s) (hidle : s.m_eOperator = Operator.Unknown) :
    s.m_stlOtherVector = [] := by
  induction hs with
  | defaultCtor => rfl
  | pushValue s0 s1 value _ hcall ih =>
    obtain ⟨_, hs1⟩ := PushValue_returned s0 s1 value hcall
    subst hs1
    rfl
  | pushValueThrown s0 s1 value e _ hcall ih =>
    obtain ⟨_, hs1, _⟩ := PushValue_thrown s0 s1 value e hcall
    subst hs1
    exact ih hidle
  | binaryReceiver op A B R A1 B1 _ _ hcall _ _ =>
    obtain ⟨_, _, _, _, hA1, _⟩ := BinaryOperator.call_returned ops op A B R A1 B1 hcall
    subst hA1
    exact absurd hidle op.tag_ne_unknown
  | binaryArgument op A B R A1 B1 _ _ hcall _ ihB =>
    obtain ⟨_, _, _, _, _, hB1⟩ := BinaryOperator.call_returned ops op A B R A1 B1 hcall
    subst hB1
    exact ihB hidle
  | binaryValue op A B R A1 B1 _ _ hcall _ _ =>
    exact (BinaryOperator.call_returned ops op A B R A1 B1 hcall).2.2.2.1
  | binaryThrownReceiver op A B A1 B1 e _ _ hcall ihA _ =>
    obtain ⟨_, _, hA1, _⟩ := BinaryOperator.call_thrown ops op A B A1 B1 e hcall
    subst hA1
    exact ihA hidle
  | binaryThrownArgument op A B A1 B1 e _ _ hcall _ ihB =>
    obtain ⟨_, _, _, hB1⟩ := BinaryOperator.call_thrown ops op A B A1 B1 e hcall
    subst hB1
    exact ihB hidle
  | copyValue X Y X1 _ hcall ih =>
    obtain ⟨_, hY⟩ := copyCtor_returned ops X Y X1 hcall
    rcases hY with ⟨_, hYX⟩ | ⟨_, _, _, hov⟩
    · subst hYX
      exact ih hidle
    · exact hov
  | copySource X Y X1 _ hcall ih =>
    obtain ⟨hX1, _⟩ := copyCtor_returned ops X Y X1 hcall
    subst hX1
    exact ih hidle
  | moveValue X _ ih => exact ih hidle
  | moveSource X _ _ => rfl
  | assignReceiver Y X Y1 X1 _ _ hcall ihY _ =>
    rcases operatorAssign_returned ops Y X Y1 X1 hcall with ⟨_, hY1, _⟩ | ⟨_, _, _, hov, _⟩
    · subst hY1
      exact ihY hidle
    · exact hov
  | assignSource Y X Y1 X1 _ _ hcall _ ihX =>
    rcases operatorAssign_returned ops Y X Y1 X1 hcall with ⟨_, _, hX1⟩ | ⟨_, _, _, _, hX1⟩
    · subst hX1
      exact ihX hidle
    · subst hX1
      rfl
  | indexStore s0 s1 index value _ hcall ih =>
    obtain ⟨hop, hov, _⟩ := operatorIndexStore_returned s0 s1 index value hcall
    rw [hov]
    exact ih (hop ▸ hidle)

/-- Instance of claim C17: the source of the assignment `y = x`, where `x` is
`[1]` after `x + z` with `z = [2]`, ends idle with an empty operand. -/
theorem idle_implies_empty_operand_witness :
    Reachable intArithmetic (⟨[1], Operator.Unknown, []⟩ : LazyVector Int) ∧
      (⟨[1], Operator.Unknown, []⟩ : LazyVector Int).m_stlOtherVector = [] := by
  have hx0 : Reachable intArithmetic (⟨[1], Operator.Unknown, []⟩ : LazyVector Int) :=
    Reachable.pushValue LazyVector.defaultCtor _ 1 Reachable.defaultCtor (by decide)
  have hz : Reachable intArithmetic (⟨[2], Operator.Unknown, []⟩ : LazyVector Int) :=
    Reachable.pushValue LazyVector.defaultCtor _ 2 Reachable.defaultCtor (by decide)
  have hx : Reachable intArithmetic (⟨[1], Operator.Add, [2]⟩ : LazyVector Int) :=
    Reachable.binaryReceiver BinaryOperator.plus ⟨[1], Operator.Unknown, []⟩
      ⟨[2], Operator.Unknown, []⟩ ⟨[3], Operator.Unknown, []⟩ ⟨[1], Operator.Add, [2]⟩
      ⟨[2], Operator.Unknown, []⟩ hx0 hz (by decide)
  have hsrc : Reachable intArithmetic (⟨[1], Operator.Unknown, []⟩ : LazyVector Int) :=
    Reachable.assignSource LazyVector.defaultCtor ⟨[1], Operator.Add, [2]⟩
      ⟨[3], Operator.Unknown, []⟩ ⟨[1], Operator.Unknown, []⟩ Reachable.defaultCtor hx
      (by decide)
  exact ⟨hsrc, idle_implies_empty_operand intArithmetic _ hsrc rfl⟩

/-- Claim C18.  The invalid-operation exception cannot leave the public
interface.  `performOperation` throws exactly when its tag is `Unknown`, and
that exception it is; for every state of the objects, whether or not the
operand fits the tag, copy construction and assignment never throw, and
`PushValue` and the binary operators never throw the invalid-operation
exception. -/
theorem invalid_operation_unreachable (ops : Arithmetic T) :
    (∀ (self s : LazyVector T) (e : Exception),
        LazyVector.performOperation ops self = Outcome.thrown e s ↔
          (self.m_eOperator = Operator.Unknown ∧ e = Exception.InvalidOperation ∧ s = self)) ∧
      (∀ (X s : LazyVector T) (e : Exception),
        LazyVector.copyCtor ops X ≠ Outcome.thrown e s) ∧
      (∀ (Y X : LazyVector T) (s : LazyVector T × LazyVector T) (e : Exception),
        LazyVector.operatorAssign ops Y X ≠ Outcome.thrown e s) ∧
      (∀ (self s : LazyVector T) (value : T),
        LazyVector.PushValue self value ≠ Outcome.thrown Exception.InvalidOperation s) ∧
      (∀ (op : BinaryOperator) (A B : LazyVector T) (s : LazyVector T × LazyVector T),
        op.call ops A B ≠ Outcome.thrown Exception.InvalidOperation s) := by
  refine ⟨?_, copyCtor_not_thrown ops, operatorAssign_not_thrown ops, ?_, ?_⟩
  · intro self s e
    obtain ⟨v, tag, ov⟩ := self
    by_cases htag : tag = Operator.Unknown
    · subst htag
      constructor
      · intro h
        simp only [LazyVector.performOperation] at h
        injection h with he hs
        exact ⟨rfl, he.symm, hs.symm⟩
      · rintro ⟨_, he, hs⟩
        subst he hs
        rfl
    · rw [performOperation_pending ops v ov tag htag]
      constructor
      · intro h
        split at h <;> cases h
      · rintro ⟨h, _, _⟩
        exact absurd h htag
  · intro self s value h
    have he := (PushValue_thrown self s value _ h).1
    cases he
  · intro op A B s h
    obtain ⟨A1, B1⟩ := s
    have he := (BinaryOperator.call_thrown ops op A B A1 B1 _ h).2.1
    cases he

/-- Instance of claim C18: copying and assigning from `([1], Add, [])`, whose
operand is too short, end in undefined behaviour of the loop, not in an
exception; from `([1], Unknown, [5])` they return. -/
theorem invalid_operation_unreachable_witness :
    LazyVector.copyCtor intArithmetic ⟨[1], Operator.Add, []⟩ = Outcome.undefined ∧
      LazyVector.copyCtor intArithmetic ⟨[1], Operator.Unknown, [5]⟩ ≠
        Outcome.thrown Exception.InvalidOperation ⟨[1], Operator.Unknown, [5]⟩ ∧
      LazyVector.operatorAssign intArithmetic ⟨[], Operator.Unknown, []⟩
          ⟨[1], Operator.Unknown, [5]⟩ ≠
        Outcome.thrown Exception.InvalidOperation
          (⟨[], Operator.Unknown, []⟩, ⟨[1], Operator.Unknown, [5]⟩) :=
  ⟨by decide,
    (invalid_operation_unreachable intArithmetic).2.1 _ _ _,
    (invalid_operation_unreachable intArithmetic).2.2.1 _ _ _ _⟩

end LazyVec
